import Mathlib

/-!
Verification of the hashd-social/relayer core: a shallow embedding of the
thread append endpoint (POST /api/messages/send in the server source) and of
the orphan-tracking cleanup service (cleanup.js), together with theorems
settling the specification claims about them.
-/

namespace Relayer

/-! ## Thread append engine (POST /api/messages/send) -/

/-- A signed message entry as submitted by the frontend: the fields of the
request body's signedMessage that the endpoint reads. -/
structure SignedMessage where
  messageId : String
  sender : String
  participants : List String
  index : Nat
  prevHash : String
  hash : String
deriving Repr, DecidableEq

/-- The shared thread file persisted at key threads/threadId. -/
structure ThreadFile where
  threadId : String
  participants : List String
  version : Nat
  lastUpdated : Nat
  messages : List SignedMessage
deriving Repr, DecidableEq

/-- The 32-byte zero hash the endpoint requires as prevHash of a first
message. -/
def ZERO_HASH : String :=
  "0x0000000000000000000000000000000000000000000000000000000000000000"

/-- The distinct rejection sites of the send endpoint, one constructor per
throw statement in the validation section of the handler. -/
inductive AppendError where
  | indexMismatch (expected got : Nat)
  | missingConfirmed (idx : Nat)
  | chainBroken (got expected : String)
  | zeroPrevRequired
deriving Repr, DecidableEq

/-- The spec groups every rejection of the chain-link validation step under
the single name ChainBroken; only the index check is classed separately as
IndexMismatch.  This classifies each throw site accordingly. -/
def AppendError.isChainViolation : AppendError → Bool
  | .indexMismatch _ _ => false
  | .missingConfirmed _ => true
  | .chainBroken _ _ => true
  | .zeroPrevRequired => true

/-- contractMessageCount as computed by the handler: 0 when no message
contract is configured; otherwise the totalMessages value returned by
getReadStatus, or 0 when that call throws (query result none). -/
def contractCount (configured : Bool) (query : Option Nat) : Nat :=
  if configured then query.getD 0 else 0

/-- Lower-casing of a string, character by character (the model of
String.prototype.toLowerCase on the identifiers at hand). -/
def lowerStr (s : String) : String := String.mk (s.data.map Char.toLower)

/-- Stable insertion of a string into a list ordered by the lower-cased
comparator the handler passes to Array.prototype.sort. -/
def insertByLower (a : String) : List String → List String
  | [] => [a]
  | b :: bs =>
    if lowerStr b < lowerStr a then b :: insertByLower a bs else a :: b :: bs

/-- The handler's participants sort: ordered by comparing lower-cased
strings, but the stored elements keep their original casing. -/
def sortParticipants : List String → List String
  | [] => []
  | a :: rest => insertByLower a (sortParticipants rest)

/-- The fresh thread file the handler builds when the contract reports 0
messages (or when the contract has messages but the S3 fetch throws). -/
def freshThread (threadId : String) (m : SignedMessage) (now : Nat) :
    ThreadFile :=
  { threadId := threadId
    participants := sortParticipants m.participants
    version := 0
    lastUpdated := now
    messages := [] }

/-- The in-memory thread file after the fetch-or-create step: on a positive
contract count the persisted file (stored) is fetched and truncated to the
confirmed count when it holds more entries, falling back to a fresh file
when the fetch throws; on a zero count the store is ignored and a fresh
file is used. -/
def reconciledFile (threadId : String) (m : SignedMessage) (cmc : Nat)
    (stored : Option ThreadFile) (now : Nat) : ThreadFile :=
  if 0 < cmc then
    match stored with
    | some tf =>
      if cmc < tf.messages.length then
        { tf with messages := tf.messages.take cmc }
      else tf
    | none => freshThread threadId m now
  else freshThread threadId m now

/-- expectedIndex as computed by the handler: the contract count when a
contract is configured, else the local message count. -/
def expectedIndex (configured : Bool) (cmc : Nat) (tf : ThreadFile) : Nat :=
  if configured then cmc else tf.messages.length

/-- Appending the accepted message: push, bump version, stamp lastUpdated. -/
def appendMessage (tf : ThreadFile) (m : SignedMessage) (now2 : Nat) :
    ThreadFile :=
  { tf with
    messages := tf.messages ++ [m]
    version := tf.version + 1
    lastUpdated := now2 }

/-- The validation and append section of the handler, operating on the
reconciled in-memory file: index check, then chain-link check, then append. -/
def validateAndAppend (configured : Bool) (cmc : Nat) (tf : ThreadFile)
    (m : SignedMessage) (now2 : Nat) : Except AppendError ThreadFile :=
  if m.index ≠ expectedIndex configured cmc tf then
    .error (.indexMismatch (expectedIndex configured cmc tf) m.index)
  else if 0 < cmc then
    match tf.messages.get? (cmc - 1) with
    | none => .error (.missingConfirmed (cmc - 1))
    | some last =>
      if m.prevHash ≠ last.hash then
        .error (.chainBroken m.prevHash last.hash)
      else .ok (appendMessage tf m now2)
  else
    if m.prevHash ≠ ZERO_HASH then .error .zeroPrevRequired
    else .ok (appendMessage tf m now2)

/-- The whole send handler on one request: compute the contract count,
reconcile the local file against it, validate and append. -/
def handleMessageSend (configured : Bool) (query : Option Nat)
    (stored : Option ThreadFile) (threadId : String) (m : SignedMessage)
    (now now2 : Nat) : Except AppendError ThreadFile :=
  validateAndAppend configured (contractCount configured query)
    (reconciledFile threadId m (contractCount configured query) stored now)
    m now2

/-- The chain-link condition of the spec: zero hash at confirmed count 0,
else agreement with the stored hash of the entry at confirmedCount - 1. -/
def chainLinkOk (cmc : Nat) (tf : ThreadFile) (m : SignedMessage) : Bool :=
  if cmc = 0 then m.prevHash == ZERO_HASH
  else
    match tf.messages.get? (cmc - 1) with
    | none => false
    | some last => m.prevHash == last.hash

/-! ## Orphan tracking store and cleanup sweeper (cleanup.js) -/

/-- The status column of the pending_uploads table. -/
inductive UploadStatus where
  | pending
  | confirmed
  | orphaned
  | unpinned
deriving Repr, DecidableEq

/-- One row of the pending_uploads table. -/
structure UploadRow where
  cid : String
  threadId : String
  messageIndex : Nat
  sender : String
  createdAt : Nat
  confirmedAt : Option Nat
  status : UploadStatus
deriving Repr, DecidableEq

/-- The pending_uploads table, as its list of rows. -/
abbrev UploadTable := List UploadRow

/-- The cid column of a table. -/
def cids (t : UploadTable) : List String := t.map (fun r => r.cid)

/-- The insertUpload prepared statement: INSERT OR REPLACE keyed on the
UNIQUE cid column deletes any row with the same cid and inserts the new
pending row. -/
def insertUpload (now : Nat) (cid threadId : String) (messageIndex : Nat)
    (sender : String) (t : UploadTable) : UploadTable :=
  t.filter (fun r => !(r.cid == cid)) ++
    [{ cid := cid
       threadId := threadId
       messageIndex := messageIndex
       sender := sender
       createdAt := now
       confirmedAt := none
       status := .pending }]

/-- trackUpload: record a new upload as pending (insertUpload at the current
time). -/
def trackUpload (now : Nat) (cid threadId : String) (messageIndex : Nat)
    (sender : String) (t : UploadTable) : UploadTable :=
  insertUpload now cid threadId messageIndex sender t

/-- UPDATE ... WHERE cid = ?: rewrite every row whose cid matches. -/
def updateRow (cid : String) (f : UploadRow → UploadRow) (t : UploadTable) :
    UploadTable :=
  t.map (fun r => if r.cid == cid then f r else r)

/-- The markConfirmed statement: set status confirmed and stamp
confirmed_at, with no guard on the previous status. -/
def markConfirmed (now : Nat) (cid : String) (t : UploadTable) :
    UploadTable :=
  updateRow cid (fun r => { r with status := .confirmed
                                   confirmedAt := some now }) t

/-- The markOrphaned statement: set status orphaned, no guard. -/
def markOrphaned (cid : String) (t : UploadTable) : UploadTable :=
  updateRow cid (fun r => { r with status := .orphaned }) t

/-- The markUnpinned statement: set status unpinned, no guard. -/
def markUnpinned (cid : String) (t : UploadTable) : UploadTable :=
  updateRow cid (fun r => { r with status := .unpinned }) t

/-- confirmUpload: the exported confirm operation, running markConfirmed at
the current time. -/
def confirmUpload (now : Nat) (cid : String) (t : UploadTable) :
    UploadTable :=
  markConfirmed now cid t

/-- The WHERE clause of getPendingUploads: status pending and created_at
older than the cutoff now - maxAgeMinutes * 60000. -/
def isStalePending (now maxAgeMinutes : Nat) (r : UploadRow) : Bool :=
  r.status == .pending && decide (r.createdAt < now - maxAgeMinutes * 60000)

/-- getStaleUploads: all pending rows older than the cutoff. -/
def getStaleUploads (now maxAgeMinutes : Nat) (t : UploadTable) :
    List UploadRow :=
  t.filter (isStalePending now maxAgeMinutes)

/-- getOrphanedUploads: all rows with status orphaned. -/
def getOrphanedUploads (t : UploadTable) : List UploadRow :=
  t.filter (fun r => r.status == .orphaned)

/-- The ledger as seen by the sweeper: none when no message contract is
configured; otherwise a query from (threadId, sender) to the totalMessages
count, returning none when getReadStatus throws. -/
abbrev Ledger := Option (String → String → Option Nat)

/-- checkOnChain: false without a contract, false when the query throws,
else confirmed exactly when the contract holds more messages than the
expected index. -/
def checkOnChain (ledger : Ledger) (threadId sender : String)
    (expectedIdx : Nat) : Bool :=
  match ledger with
  | none => false
  | some query =>
    match query threadId sender with
    | none => false
    | some totalMessages => decide (expectedIdx < totalMessages)

/-- Operations a sweep could issue against the object store. -/
inductive StoreOp where
  | deleteObject (cid : String)
deriving Repr, DecidableEq

/-- unpinFromFilebase: the source's stub. It logs and reports success
without issuing any operation to the store (the code comment reads: for
now, we'll just mark it as unpinned in our database). -/
def unpinFromFilebase (cid : String) : Bool × List StoreOp := (true, [])

/-- One iteration of the sweep's check loop: confirmed on-chain entries are
marked confirmed, the rest are marked orphaned; counters track each. -/
def checkStep (ledger : Ledger) (now : Nat)
    (acc : UploadTable × Nat × Nat) (u : UploadRow) :
    UploadTable × Nat × Nat :=
  if checkOnChain ledger u.threadId u.sender u.messageIndex then
    (markConfirmed now u.cid acc.1, acc.2.1 + 1, acc.2.2)
  else
    (markOrphaned u.cid acc.1, acc.2.1, acc.2.2 + 1)

/-- The sweep's check loop over the stale snapshot, returning the updated
table with the confirmed and orphaned counters. -/
def checkPhase (ledger : Ledger) (now : Nat) (t : UploadTable)
    (stale : List UploadRow) : UploadTable × Nat × Nat :=
  stale.foldl (checkStep ledger now) (t, 0, 0)

/-- One iteration of the sweep's unpin loop: skipped wholesale on dryRun,
otherwise the stub unpin runs and markUnpinned follows on success. -/
def unpinStep (dryRun : Bool) (acc : UploadTable × Nat × List StoreOp)
    (u : UploadRow) : UploadTable × Nat × List StoreOp :=
  if dryRun then acc
  else
    let res := unpinFromFilebase u.cid
    if res.1 then (markUnpinned u.cid acc.1, acc.2.1 + 1, acc.2.2 ++ res.2)
    else (acc.1, acc.2.1, acc.2.2 ++ res.2)

/-- The sweep's unpin loop over the orphaned snapshot, returning the updated
table, the unpinned counter, and every store operation issued. -/
def unpinPhase (dryRun : Bool) (t : UploadTable) (rows : List UploadRow) :
    UploadTable × Nat × List StoreOp :=
  rows.foldl (unpinStep dryRun) (t, 0, [])

/-- The counters runCleanup reports. -/
structure CleanupStats where
  confirmed : Nat
  orphaned : Nat
  unpinned : Nat
  errors : Nat
deriving Repr, DecidableEq

/-- runCleanup: snapshot the stale pending rows, run the check loop over
them, then snapshot the orphaned rows of the updated table and run the
unpin loop over those.  In this model no database statement or stub throws,
so the errors counter is 0. -/
def runCleanup (ledger : Ledger) (now maxAgeMinutes : Nat) (dryRun : Bool)
    (t : UploadTable) : UploadTable × CleanupStats × List StoreOp :=
  let stale := getStaleUploads now maxAgeMinutes t
  let pc := checkPhase ledger now t stale
  let rows := getOrphanedUploads pc.1
  let pu := unpinPhase dryRun pc.1 rows
  (pu.1, { confirmed := pc.2.1
           orphaned := pc.2.2
           unpinned := pu.2.1
           errors := 0 }, pu.2.2)

/-- The status of the row keyed by a cid, none when no such row exists. -/
def statusOf (t : UploadTable) (cid : String) : Option UploadStatus :=
  (t.find? (fun r => r.cid == cid)).map (fun r => r.status)

/-- The per-sweep status changes the amended monotonicity claim allows: no
change, pending to any of the three later states within one sweep, or
orphaned to unpinned. -/
def sweepStepOk (s s2 : Option UploadStatus) : Prop :=
  s2 = s ∨
    (s = some .pending ∧
      (s2 = some .confirmed ∨ s2 = some .orphaned ∨ s2 = some .unpinned)) ∨
    (s = some .orphaned ∧ s2 = some .unpinned)

/-- One recorded call to trackUpload, for reasoning about call sequences. -/
structure TrackCall where
  cid : String
  threadId : String
  messageIndex : Nat
  sender : String
  time : Nat
deriving Repr, DecidableEq

/-- Apply one recorded track call to the table. -/
def applyTrack (t : UploadTable) (k : TrackCall) : UploadTable :=
  trackUpload k.time k.cid k.threadId k.messageIndex k.sender t

/-! ## Concrete inputs used by witnesses and counterexamples -/

/-- A first message whose participants list carries an upper-case letter. -/
def msgC9 : SignedMessage :=
  { messageId := "m0"
    sender := "0xAB"
    participants := ["0xAB"]
    index := 0
    prevHash := ZERO_HASH
    hash := "h0" }

/-- A message claiming index 1 against an empty confirmed log. -/
def msgIdx1 : SignedMessage :=
  { messageId := "m1"
    sender := "s"
    participants := ["s"]
    index := 1
    prevHash := ZERO_HASH
    hash := "h1" }

/-- A first message with a non-zero prevHash. -/
def msgBadPrev : SignedMessage :=
  { messageId := "m2"
    sender := "s"
    participants := ["s"]
    index := 0
    prevHash := "0xdeadbeef"
    hash := "h2" }

/-- A message appending at index 1 on a thread with one confirmed entry. -/
def msgAtOne : SignedMessage :=
  { messageId := "m3"
    sender := "s"
    participants := ["s"]
    index := 1
    prevHash := "h0"
    hash := "h3" }

/-- A stored thread file holding two entries, the second unconfirmed. -/
def tfTwo : ThreadFile :=
  { threadId := "t"
    participants := ["s"]
    version := 2
    lastUpdated := 9
    messages := [msgC9, msgBadPrev] }

/-- A pending tracked row created at time 0. -/
def rowPending : UploadRow :=
  { cid := "cp"
    threadId := "t"
    messageIndex := 0
    sender := "s"
    createdAt := 0
    confirmedAt := none
    status := .pending }

/-- A tracked row already in the terminal unpinned state. -/
def rowUnpinned : UploadRow :=
  { cid := "cu"
    threadId := "t"
    messageIndex := 0
    sender := "s"
    createdAt := 0
    confirmedAt := none
    status := .unpinned }

/-- A tracked row already orphaned. -/
def rowOrphaned : UploadRow :=
  { cid := "co"
    threadId := "t"
    messageIndex := 0
    sender := "s"
    createdAt := 0
    confirmedAt := none
    status := .orphaned }

/-- A configured ledger whose getReadStatus call always throws. -/
def failingLedger : Ledger := some (fun _ _ => none)

/-! ## Lemmas about the append engine -/

lemma reconciledFile_zero (threadId : String) (m : SignedMessage)
    (stored : Option ThreadFile) (now : Nat) :
    reconciledFile threadId m 0 stored now = freshThread threadId m now := by
  simp [reconciledFile]

lemma contractCount_not_configured (query : Option Nat) :
    contractCount false query = 0 := by
  simp [contractCount]

/-- The expected index the handler validates against always equals the
contract-confirmed count, including when no contract is configured (then
both are 0, the fresh file being empty). -/
lemma expectedIndex_eq_contractCount (configured : Bool) (query : Option Nat)
    (stored : Option ThreadFile) (threadId : String) (m : SignedMessage)
    (now : Nat) :
    expectedIndex configured (contractCount configured query)
      (reconciledFile threadId m (contractCount configured query) stored now)
      = contractCount configured query := by
  cases configured with
  | true => simp [expectedIndex]
  | false =>
    simp [expectedIndex, contractCount_not_configured, reconciledFile_zero,
      freshThread]

/-- Closed form of the validation once the index check passes: the result is
decided entirely by the chain-link comparison. -/
lemma validateAndAppend_of_index_eq (configured : Bool) (cmc : Nat)
    (tf : ThreadFile) (m : SignedMessage) (now2 : Nat)
    (hidx : m.index = expectedIndex configured cmc tf) :
    validateAndAppend configured cmc tf m now2 =
      if cmc = 0 then
        (if m.prevHash = ZERO_HASH then .ok (appendMessage tf m now2)
         else .error .zeroPrevRequired)
      else
        match tf.messages.get? (cmc - 1) with
        | none => .error (.missingConfirmed (cmc - 1))
        | some last =>
          if m.prevHash = last.hash then .ok (appendMessage tf m now2)
          else .error (.chainBroken m.prevHash last.hash) := by
  unfold validateAndAppend
  rw [if_neg (by simp [hidx])]
  rcases Nat.eq_zero_or_pos cmc with h0 | hpos
  · subst h0
    simp [ite_not]
  · rw [if_pos hpos, if_neg (Nat.pos_iff_ne_zero.mp hpos)]
    cases hget : tf.messages.get? (cmc - 1) with
    | none => rfl
    | some last => simp [ite_not]

/-! ## Claim theorems for the append engine -/

/-- Claim C1: the engine computes expectedIndex as the ledger-confirmed
count, and an append whose signed index differs from it fails with the
IndexMismatch error (so no entry is appended); equivalently the engine
accepts an entry only when its index equals the confirmed count. -/
theorem append_rejects_index_mismatch (configured : Bool)
    (query : Option Nat) (stored : Option ThreadFile) (threadId : String)
    (m : SignedMessage) (now now2 : Nat)
    (hne : m.index ≠ contractCount configured query) :
    handleMessageSend configured query stored threadId m now now2 =
      .error (.indexMismatch (contractCount configured query) m.index) ∧
    expectedIndex configured (contractCount configured query)
      (reconciledFile threadId m (contractCount configured query) stored now)
      = contractCount configured query := by
  refine ⟨?_, expectedIndex_eq_contractCount configured query stored
    threadId m now⟩
  unfold handleMessageSend validateAndAppend
  rw [expectedIndex_eq_contractCount]
  rw [if_pos hne]

/-- Witness for C1 at a concrete input: index 1 against confirmed count 0
is rejected with IndexMismatch. -/
theorem append_rejects_index_mismatch_witness :
    msgIdx1.index ≠ contractCount true (some 0) ∧
    handleMessageSend true (some 0) none ("t") msgIdx1 3 4 =
      .error (.indexMismatch (contractCount true (some 0)) msgIdx1.index) := by
  refine ⟨by decide, ?_⟩
  exact (append_rejects_index_mismatch true (some 0) none ("t") msgIdx1 3 4
    (by decide)).1

/-- Claim C2: once the index check passes, the append is accepted exactly
when the chain link is valid (zero hash at confirmed count 0, agreement
with the hash of the entry at confirmedCount - 1 of the truncated log
otherwise), and every chain-link rejection carries a ChainBroken-class
error. -/
theorem append_chain_link_rule (configured : Bool) (query : Option Nat)
    (stored : Option ThreadFile) (threadId : String) (m : SignedMessage)
    (now now2 : Nat)
    (hidx : m.index = contractCount configured query) :
    ((∃ tf2, handleMessageSend configured query stored threadId m now now2
        = Except.ok tf2) ↔
      chainLinkOk (contractCount configured query)
        (reconciledFile threadId m (contractCount configured query) stored
          now) m = true) ∧
    (chainLinkOk (contractCount configured query)
        (reconciledFile threadId m (contractCount configured query) stored
          now) m = false →
      ∃ e, handleMessageSend configured query stored threadId m now now2
          = Except.error e ∧ e.isChainViolation = true) := by
  have hexp := expectedIndex_eq_contractCount configured query stored
    threadId m now
  have hclosed := validateAndAppend_of_index_eq configured
    (contractCount configured query)
    (reconciledFile threadId m (contractCount configured query) stored now)
    m now2 (hidx.trans hexp.symm)
  unfold handleMessageSend
  rw [hclosed]
  unfold chainLinkOk
  rcases Nat.eq_zero_or_pos (contractCount configured query) with h0 | hpos
  · rw [h0]
    simp only [if_pos rfl]
    by_cases hz : m.prevHash = ZERO_HASH
    · simp [hz]
    · simp [hz, AppendError.isChainViolation]
  · rw [if_neg (Nat.pos_iff_ne_zero.mp hpos),
      if_neg (Nat.pos_iff_ne_zero.mp hpos)]
    cases hget : (reconciledFile threadId m (contractCount configured query)
        stored now).messages.get? (contractCount configured query - 1) with
    | none => simp [AppendError.isChainViolation]
    | some last =>
      by_cases hh : m.prevHash = last.hash
      · simp [hh]
      · simp [hh, AppendError.isChainViolation]

/-- Witness for C2 at a concrete input: a first message with a non-zero
prevHash is rejected with a ChainBroken-class error. -/
theorem append_chain_link_rule_witness :
    msgBadPrev.index = contractCount false none ∧
    (chainLinkOk (contractCount false none)
        (reconciledFile ("t") msgBadPrev (contractCount false none) none 3)
        msgBadPrev = false →
      ∃ e, handleMessageSend false none none ("t") msgBadPrev 3 4
          = Except.error e ∧ e.isChainViolation = true) := by
  refine ⟨by decide, ?_⟩
  exact (append_chain_link_rule false none none ("t") msgBadPrev 3 4
    (by decide)).2

/-- Claim C3: when the contract count is positive and the fetched persisted
log holds more entries than it, the in-memory log is truncated to exactly
the first confirmedCount entries, and the handler validates against that
truncated file. -/
theorem append_truncates_excess (configured : Bool) (query : Option Nat)
    (tf : ThreadFile) (stored : Option ThreadFile) (threadId : String)
    (m : SignedMessage) (now now2 : Nat)
    (hs : stored = some tf)
    (hpos : 0 < contractCount configured query)
    (hlen : contractCount configured query < tf.messages.length) :
    reconciledFile threadId m (contractCount configured query) stored now
      = { tf with
          messages := tf.messages.take (contractCount configured query) } ∧
    (reconciledFile threadId m (contractCount configured query) stored
        now).messages.length = contractCount configured query ∧
    handleMessageSend configured query stored threadId m now now2
      = validateAndAppend configured (contractCount configured query)
          { tf with
            messages := tf.messages.take (contractCount configured query) }
          m now2 := by
  subst hs
  have h1 : reconciledFile threadId m (contractCount configured query)
      (some tf) now
      = { tf with
          messages := tf.messages.take (contractCount configured query) } := by
    simp [reconciledFile, hpos, hlen]
  refine ⟨h1, ?_, ?_⟩
  · rw [h1]
    simpa using Nat.le_of_lt hlen
  · unfold handleMessageSend
    rw [h1]

/-- Witness for C3 at a concrete input: a stored log of two entries against
confirmed count 1 is truncated to its first entry. -/
theorem append_truncates_excess_witness :
    (0 < contractCount true (some 1) ∧
      contractCount true (some 1) < tfTwo.messages.length) ∧
    reconciledFile ("t") msgAtOne (contractCount true (some 1)) (some tfTwo) 3
      = { tfTwo with
          messages := tfTwo.messages.take (contractCount true (some 1)) } := by
  refine ⟨⟨by decide, by decide⟩, ?_⟩
  exact (append_truncates_excess true (some 1) tfTwo (some tfTwo) ("t")
    msgAtOne 3 4 rfl (by decide) (by decide)).1

/-- Counterexample to claim C9 as stated: on a fresh thread the stored
participants keep their original casing; the handler sorts with a
lower-cased comparator but never lower-cases the values, so the accepted
file's participants list is not the lower-cased one the claim requires. -/
theorem fresh_thread_keeps_participant_case :
    handleMessageSend false none none ("t1") msgC9 5 6 =
      Except.ok { threadId := "t1", participants := ["0xAB"], version := 1,
                  lastUpdated := 6, messages := [msgC9] } ∧
    ["0xAB"].map lowerStr = ["0xab"] ∧
    (["0xAB"] : List String) ≠ ["0xab"] := by
  refine ⟨rfl, by decide, by decide⟩

/-- Claim C9 (amended): on confirmed count 0 the handler ignores any stored
object and proceeds from an empty fresh log whose participants are the
given ones sorted case-insensitively (by their lower-cased forms) while
retaining their original casing. -/
theorem fresh_thread_from_empty_sorted (configured : Bool)
    (query : Option Nat) (stored : Option ThreadFile) (threadId : String)
    (m : SignedMessage) (now now2 : Nat)
    (h0 : contractCount configured query = 0) :
    reconciledFile threadId m (contractCount configured query) stored now
      = freshThread threadId m now ∧
    (freshThread threadId m now).messages = [] ∧
    (freshThread threadId m now).participants = sortParticipants
      m.participants ∧
    handleMessageSend configured query stored threadId m now now2
      = validateAndAppend configured 0 (freshThread threadId m now) m
          now2 := by
  refine ⟨by rw [h0]; exact reconciledFile_zero threadId m stored now,
    rfl, rfl, ?_⟩
  unfold handleMessageSend
  rw [h0, reconciledFile_zero]

/-- Witness for the amended C9 at a concrete input. -/
theorem fresh_thread_from_empty_sorted_witness :
    contractCount true none = 0 ∧
    reconciledFile ("t1") msgC9 (contractCount true none) (some tfTwo) 5
      = freshThread ("t1") msgC9 5 := by
  refine ⟨by decide, ?_⟩
  exact (fresh_thread_from_empty_sorted true none (some tfTwo) ("t1") msgC9
    5 6 (by decide)).1

/-! ## Lemmas about the tracking table and the sweep -/

lemma cids_updateRow (cid : String) (f : UploadRow → UploadRow)
    (t : UploadTable) (hf : ∀ r, (f r).cid = r.cid) :
    cids (updateRow cid f t) = cids t := by
  induction t with
  | nil => rfl
  | cons a l ih =>
    simp only [updateRow, cids, List.map_cons] at *
    congr 1
    split
    · exact hf a
    · rfl

lemma statusOf_updateRow_self (cid : String) (f : UploadRow → UploadRow)
    (t : UploadTable) (hf : ∀ r, (f r).cid = r.cid) :
    statusOf (updateRow cid f t) cid =
      (t.find? (fun r => r.cid == cid)).map (fun r => (f r).status) := by
  induction t with
  | nil => rfl
  | cons a l ih =>
    simp only [updateRow, List.map_cons]
    by_cases ha : (a.cid == cid) = true
    · rw [if_pos ha]
      have hfa : ((f a).cid == cid) = true := by rw [hf]; exact ha
      simp only [statusOf, List.find?, hfa, ha]
      rfl
    · rw [if_neg ha]
      have ha3 : (a.cid == cid) = false := by simpa using ha
      simp only [statusOf, updateRow] at ih
      simp only [statusOf, List.find?, ha3]
      exact ih

lemma statusOf_updateRow_other (cid c : String) (f : UploadRow → UploadRow)
    (t : UploadTable) (hf : ∀ r, (f r).cid = r.cid) (hne : c ≠ cid) :
    statusOf (updateRow cid f t) c = statusOf t c := by
  induction t with
  | nil => rfl
  | cons a l ih =>
    simp only [updateRow, List.map_cons]
    simp only [statusOf, updateRow] at ih
    by_cases ha : (a.cid == cid) = true
    · have ha2 : a.cid = cid := by simpa using ha
      have hfa : ((f a).cid == c) = false := by
        rw [hf, ha2]
        simp only [beq_eq_false_iff_ne]
        exact fun h => hne h.symm
      have hac : (a.cid == c) = false := by
        rw [ha2]
        simp only [beq_eq_false_iff_ne]
        exact fun h => hne h.symm
      rw [if_pos ha]
      simp only [statusOf, List.find?, hfa, hac]
      exact ih
    · rw [if_neg ha]
      by_cases hac : (a.cid == c) = true
      · simp only [statusOf, List.find?, hac]
      · have hac3 : (a.cid == c) = false := by simpa using hac
        simp only [statusOf, List.find?, hac3]
        exact ih

lemma statusOf_markConfirmed_self (now : Nat) (cid : String)
    (t : UploadTable) :
    statusOf (markConfirmed now cid t) cid =
      (statusOf t cid).map (fun _ => UploadStatus.confirmed) := by
  unfold markConfirmed
  rw [statusOf_updateRow_self cid
    (fun r => { r with status := UploadStatus.confirmed
                       confirmedAt := some now }) t (fun r => rfl)]
  rw [statusOf, Option.map_map]
  rfl

lemma statusOf_markOrphaned_self (cid : String) (t : UploadTable) :
    statusOf (markOrphaned cid t) cid =
      (statusOf t cid).map (fun _ => UploadStatus.orphaned) := by
  unfold markOrphaned
  rw [statusOf_updateRow_self cid
    (fun r => { r with status := UploadStatus.orphaned }) t (fun r => rfl)]
  rw [statusOf, Option.map_map]
  rfl

lemma statusOf_markUnpinned_self (cid : String) (t : UploadTable) :
    statusOf (markUnpinned cid t) cid =
      (statusOf t cid).map (fun _ => UploadStatus.unpinned) := by
  unfold markUnpinned
  rw [statusOf_updateRow_self cid
    (fun r => { r with status := UploadStatus.unpinned }) t (fun r => rfl)]
  rw [statusOf, Option.map_map]
  rfl

lemma statusOf_markConfirmed_other (now : Nat) (cid c : String)
    (t : UploadTable) (hne : c ≠ cid) :
    statusOf (markConfirmed now cid t) c = statusOf t c :=
  statusOf_updateRow_other cid c
    (fun r => { r with status := UploadStatus.confirmed
                       confirmedAt := some now }) t (fun r => rfl) hne

lemma statusOf_markOrphaned_other (cid c : String) (t : UploadTable)
    (hne : c ≠ cid) :
    statusOf (markOrphaned cid t) c = statusOf t c :=
  statusOf_updateRow_other cid c
    (fun r => { r with status := UploadStatus.orphaned }) t
    (fun r => rfl) hne

lemma statusOf_markUnpinned_other (cid c : String) (t : UploadTable)
    (hne : c ≠ cid) :
    statusOf (markUnpinned cid t) c = statusOf t c :=
  statusOf_updateRow_other cid c
    (fun r => { r with status := UploadStatus.unpinned }) t
    (fun r => rfl) hne

lemma row_eq_of_nodup_cids :
    ∀ (t : UploadTable), (cids t).Nodup →
      ∀ u v : UploadRow, u ∈ t → v ∈ t → u.cid = v.cid → u = v := by
  intro t
  induction t with
  | nil => intro _ u v hu; cases hu
  | cons a l ih =>
    intro hn u v hu hv hcid
    have hn2 : (∀ x ∈ l, ¬ x.cid = a.cid) ∧
        (List.map (fun r => r.cid) l).Nodup := by simpa [cids] using hn
    rcases List.mem_cons.mp hu with rfl | hu2
    · rcases List.mem_cons.mp hv with rfl | hv2
      · rfl
      · exact absurd hcid.symm (hn2.1 v hv2)
    · rcases List.mem_cons.mp hv with rfl | hv2
      · exact absurd hcid (hn2.1 u hu2)
      · exact ih hn2.2 u v hu2 hv2 hcid

lemma find?_self_of_nodup :
    ∀ (t : UploadTable), (cids t).Nodup →
      ∀ u : UploadRow, u ∈ t →
        t.find? (fun r => r.cid == u.cid) = some u := by
  intro t
  induction t with
  | nil => intro _ u hu; cases hu
  | cons a l ih =>
    intro hn u hu
    have hn2 : (∀ x ∈ l, ¬ x.cid = a.cid) ∧
        (List.map (fun r => r.cid) l).Nodup := by simpa [cids] using hn
    rcases List.mem_cons.mp hu with rfl | hu2
    · simp [List.find?]
    · have hne : (a.cid == u.cid) = false := by
        simp only [beq_eq_false_iff_ne]
        exact fun h => hn2.1 u hu2 h.symm
      simp only [List.find?, hne]
      exact ih hn2.2 u hu2

lemma cids_filter_nodup (p : UploadRow → Bool) (t : UploadTable)
    (hK : (cids t).Nodup) : (cids (t.filter p)).Nodup := by
  have h : (cids (t.filter p)).Sublist (cids t) := by
    simp only [cids]
    exact (List.filter_sublist t).map (fun r => r.cid)
  exact List.Nodup.sublist h hK

lemma statusOf_insert_self (now : Nat) (cid threadId : String)
    (messageIndex : Nat) (sender : String) (t : UploadTable) :
    statusOf (insertUpload now cid threadId messageIndex sender t) cid =
      some .pending := by
  unfold insertUpload statusOf
  rw [List.find?_append]
  have h1 : (t.filter (fun r => !(r.cid == cid))).find?
      (fun r => r.cid == cid) = none := by
    rw [List.find?_eq_none]
    intro x hx
    have := (List.mem_filter.mp hx).2
    simp at this
    simp [this]
  rw [h1]
  simp

lemma cids_insert_nodup (now : Nat) (cid threadId : String)
    (messageIndex : Nat) (sender : String) (t : UploadTable)
    (hK : (cids t).Nodup) :
    (cids (insertUpload now cid threadId messageIndex sender t)).Nodup := by
  unfold insertUpload
  rw [cids, List.map_append, List.nodup_append]
  refine ⟨cids_filter_nodup _ t hK, by simp, ?_⟩
  intro x hx
  obtain ⟨r, hr, rfl⟩ := List.mem_map.mp hx
  have := (List.mem_filter.mp hr).2
  simp at this
  simp [this]

lemma cids_markConfirmed (now : Nat) (cid : String) (t : UploadTable) :
    cids (markConfirmed now cid t) = cids t := by
  unfold markConfirmed
  apply cids_updateRow
  intro r
  rfl

lemma cids_markOrphaned (cid : String) (t : UploadTable) :
    cids (markOrphaned cid t) = cids t := by
  unfold markOrphaned
  apply cids_updateRow
  intro r
  rfl

lemma cids_markUnpinned (cid : String) (t : UploadTable) :
    cids (markUnpinned cid t) = cids t := by
  unfold markUnpinned
  apply cids_updateRow
  intro r
  rfl

lemma checkFold_cids (L : Ledger) (now : Nat) :
    ∀ (us : List UploadRow) (acc : UploadTable × Nat × Nat),
      cids (us.foldl (checkStep L now) acc).1 = cids acc.1 := by
  intro us
  induction us with
  | nil => intro acc; rfl
  | cons u l ih =>
    intro acc
    rw [List.foldl_cons, ih]
    unfold checkStep
    by_cases hchk : checkOnChain L u.threadId u.sender u.messageIndex = true
    · rw [if_pos hchk]
      exact cids_markConfirmed now u.cid acc.1
    · rw [if_neg hchk]
      exact cids_markOrphaned u.cid acc.1

lemma checkFold_status_not_mem (L : Ledger) (now : Nat) :
    ∀ (us : List UploadRow) (acc : UploadTable × Nat × Nat) (c : String),
      c ∉ us.map (fun u => u.cid) →
      statusOf (us.foldl (checkStep L now) acc).1 c = statusOf acc.1 c := by
  intro us
  induction us with
  | nil => intro acc c _; rfl
  | cons u l ih =>
    intro acc c hc
    have hc1 : c ≠ u.cid := fun h => hc (by simp [h])
    have hc2 : c ∉ l.map (fun v => v.cid) := fun h => hc (by simp [h])
    rw [List.foldl_cons, ih _ c hc2]
    unfold checkStep
    by_cases hchk : checkOnChain L u.threadId u.sender u.messageIndex = true
    · rw [if_pos hchk]
      exact statusOf_markConfirmed_other now u.cid c acc.1 hc1
    · rw [if_neg hchk]
      exact statusOf_markOrphaned_other u.cid c acc.1 hc1

lemma checkFold_status_char (L : Ledger) (now : Nat) :
    ∀ (us : List UploadRow) (acc : UploadTable × Nat × Nat) (c : String),
      (us.map (fun u => u.cid)).Nodup →
      statusOf (us.foldl (checkStep L now) acc).1 c =
        match us.find? (fun u => u.cid == c) with
        | none => statusOf acc.1 c
        | some u => (statusOf acc.1 c).map
            (fun _ => if checkOnChain L u.threadId u.sender u.messageIndex
                      then UploadStatus.confirmed
                      else UploadStatus.orphaned) := by
  intro us
  induction us with
  | nil => intro acc c _; rfl
  | cons u l ih =>
    intro acc c hnd
    have hnd2 : (∀ x ∈ l, ¬ x.cid = u.cid) ∧
        (l.map (fun v => v.cid)).Nodup := by simpa using hnd
    by_cases hc : (u.cid == c) = true
    · have hcc : u.cid = c := by simpa using hc
      subst hcc
      have hnotin : u.cid ∉ l.map (fun v => v.cid) := by
        intro hmem
        obtain ⟨x, hx, hxc⟩ := List.mem_map.mp hmem
        exact hnd2.1 x hx hxc
      rw [List.foldl_cons, checkFold_status_not_mem L now l _ u.cid hnotin]
      simp only [List.find?, beq_self_eq_true]
      unfold checkStep
      by_cases hchk : checkOnChain L u.threadId u.sender u.messageIndex
        = true
      · rw [if_pos hchk]
        rw [statusOf_markConfirmed_self]
        simp [hchk]
      · rw [if_neg hchk]
        rw [statusOf_markOrphaned_self]
        simp [hchk]
    · have hc3 : (u.cid == c) = false := by simpa using hc
      have hne : c ≠ u.cid := fun h => (beq_eq_false_iff_ne.mp hc3) h.symm
      have hstep : statusOf (checkStep L now acc u).1 c = statusOf acc.1 c
          := by
        unfold checkStep
        by_cases hchk : checkOnChain L u.threadId u.sender u.messageIndex
          = true
        · rw [if_pos hchk]
          exact statusOf_markConfirmed_other now u.cid c acc.1 hne
        · rw [if_neg hchk]
          exact statusOf_markOrphaned_other u.cid c acc.1 hne
      rw [List.foldl_cons, ih (checkStep L now acc u) c hnd2.2, hstep]
      simp only [List.find?, hc3]

lemma checkFold_confirmed_of_false (L : Ledger) (now : Nat) :
    ∀ (us : List UploadRow) (acc : UploadTable × Nat × Nat),
      (∀ u ∈ us,
        checkOnChain L u.threadId u.sender u.messageIndex = false) →
      (us.foldl (checkStep L now) acc).2.1 = acc.2.1 := by
  intro us
  induction us with
  | nil => intro acc _; rfl
  | cons u l ih =>
    intro acc hall
    have hu := hall u (List.mem_cons_self u l)
    rw [List.foldl_cons, ih _ (fun v hv => hall v (List.mem_cons_of_mem u hv))]
    unfold checkStep
    rw [if_neg (by simp [hu])]

lemma unpinFold_dry :
    ∀ (rows : List UploadRow) (acc : UploadTable × Nat × List StoreOp),
      rows.foldl (unpinStep true) acc = acc := by
  intro rows
  induction rows with
  | nil => intro acc; rfl
  | cons u l ih =>
    intro acc
    rw [List.foldl_cons]
    exact ih _

lemma unpinFold_ops (dry : Bool) :
    ∀ (rows : List UploadRow) (acc : UploadTable × Nat × List StoreOp),
      (rows.foldl (unpinStep dry) acc).2.2 = acc.2.2 := by
  intro rows
  induction rows with
  | nil => intro acc; rfl
  | cons u l ih =>
    intro acc
    rw [List.foldl_cons, ih]
    cases dry with
    | true => rfl
    | false => simp [unpinStep, unpinFromFilebase]

lemma unpinFold_status (dry : Bool) :
    ∀ (rows : List UploadRow) (acc : UploadTable × Nat × List StoreOp)
      (c : String),
      statusOf (rows.foldl (unpinStep dry) acc).1 c =
        if dry = false ∧ c ∈ rows.map (fun u => u.cid)
        then (statusOf acc.1 c).map (fun _ => UploadStatus.unpinned)
        else statusOf acc.1 c := by
  intro rows
  induction rows with
  | nil => intro acc c; simp
  | cons u l ih =>
    intro acc c
    cases dry with
    | true =>
      rw [unpinFold_dry]
      simp
    | false =>
      rw [List.foldl_cons, ih]
      have hstep1 : (unpinStep false acc u).1 = markUnpinned u.cid acc.1 :=
        rfl
      rw [hstep1]
      by_cases hc : c = u.cid
      · subst hc
        rw [statusOf_markUnpinned_self]
        have hhead : u.cid ∈ (u :: l).map (fun v => v.cid) := by
          rw [List.map_cons]
          exact List.mem_cons_self _ _
        by_cases hmem : u.cid ∈ l.map (fun v => v.cid)
        · rw [if_pos ⟨rfl, hmem⟩, if_pos ⟨rfl, hhead⟩, Option.map_map]
          rfl
        · rw [if_neg (fun h => hmem h.2), if_pos ⟨rfl, hhead⟩]
      · rw [statusOf_markUnpinned_other u.cid c acc.1 hc]
        by_cases hmem : c ∈ l.map (fun v => v.cid)
        · have htail : c ∈ (u :: l).map (fun v => v.cid) := by
            rw [List.map_cons]
            exact List.mem_cons_of_mem _ hmem
          rw [if_pos ⟨rfl, hmem⟩, if_pos ⟨rfl, htail⟩]
        · have hnm : c ∉ (u :: l).map (fun v => v.cid) := by
            rw [List.map_cons]
            intro h
            rcases List.mem_cons.mp h with h1 | h2
            · exact hc h1
            · exact hmem h2
          rw [if_neg (fun h => hmem h.2), if_neg (fun h => hnm h.2)]

lemma filter_cid_length_le_one (c : String) :
    ∀ (t : UploadTable), (cids t).Nodup →
      (t.filter (fun r => r.cid == c)).length ≤ 1 := by
  intro t
  induction t with
  | nil => intro _; simp
  | cons a l ih =>
    intro hn
    have hn2 : (∀ x ∈ l, ¬ x.cid = a.cid) ∧
        (List.map (fun r => r.cid) l).Nodup := by simpa [cids] using hn
    by_cases ha : (a.cid == c) = true
    · have ha2 : a.cid = c := by simpa using ha
      have hempty : l.filter (fun r => r.cid == c) = [] := by
        rw [List.filter_eq_nil_iff]
        intro x hx hpx
        have hx2 : x.cid = c := by simpa using hpx
        exact hn2.1 x hx (hx2.trans ha2.symm)
      simp [List.filter_cons, ha, hempty]
    · have ha3 : (a.cid == c) = false := by simpa using ha
      simp only [List.filter_cons, ha3, Bool.false_eq_true, if_false]
      exact ih hn2.2

/-- How the stale snapshot of a keyed table finds a given cid: the row the
table holds for it when that row passes the staleness filter, nothing
otherwise. -/
lemma stale_find (now maxAgeMinutes : Nat) (t : UploadTable) (c : String)
    (r : UploadRow) (hK : (cids t).Nodup)
    (hf : t.find? (fun x => x.cid == c) = some r) :
    (getStaleUploads now maxAgeMinutes t).find? (fun u => u.cid == c) =
      if isStalePending now maxAgeMinutes r then some r else none := by
  have hr_mem : r ∈ t := List.mem_of_find?_eq_some hf
  have hr_cid : r.cid = c := by simpa using List.find?_some hf
  by_cases hp : isStalePending now maxAgeMinutes r = true
  · rw [if_pos hp]
    have hmem : r ∈ getStaleUploads now maxAgeMinutes t :=
      List.mem_filter.mpr ⟨hr_mem, hp⟩
    have hnd : (cids (getStaleUploads now maxAgeMinutes t)).Nodup :=
      cids_filter_nodup _ t hK
    have h2 := find?_self_of_nodup _ hnd r hmem
    rw [hr_cid] at h2
    exact h2
  · rw [if_neg hp]
    rw [List.find?_eq_none]
    intro x hx hpx
    have hx_t : x ∈ t := (List.mem_filter.mp hx).1
    have hx_stale : isStalePending now maxAgeMinutes x = true :=
      (List.mem_filter.mp hx).2
    have hx_cid : x.cid = c := by simpa using hpx
    have hxr : x = r :=
      row_eq_of_nodup_cids t hK x r hx_t hr_mem (hx_cid.trans hr_cid.symm)
    exact hp (hxr ▸ hx_stale)

/-- Membership of a cid in the orphaned snapshot of a keyed table is
exactly having status orphaned there. -/
lemma mem_orphaned_cids_iff (t1 : UploadTable) (hK : (cids t1).Nodup)
    (c : String) :
    c ∈ (getOrphanedUploads t1).map (fun u => u.cid) ↔
      statusOf t1 c = some .orphaned := by
  constructor
  · intro hmem
    obtain ⟨u, hu, rfl⟩ := List.mem_map.mp hmem
    have hu_t : u ∈ t1 := (List.mem_filter.mp hu).1
    have hu_st : (u.status == UploadStatus.orphaned) = true :=
      (List.mem_filter.mp hu).2
    have hfind := find?_self_of_nodup _ hK u hu_t
    have : u.status = .orphaned := by simpa using hu_st
    simp [statusOf, hfind, this]
  · intro hst
    rcases hfind : t1.find? (fun r => r.cid == c) with _ | r
    · simp [statusOf, hfind] at hst
    · have hc : r.cid = c := by simpa using List.find?_some hfind
      have hmem_t : r ∈ t1 := List.mem_of_find?_eq_some hfind
      have hrs : r.status = .orphaned := by
        simpa [statusOf, hfind] using hst
      exact List.mem_map.mpr
        ⟨r, List.mem_filter.mpr ⟨hmem_t, by simp [hrs]⟩, hc⟩

/-- Row-by-row characterization of the check phase over the stale snapshot
of a keyed table: a stale pending row moves to confirmed or orphaned as its
own on-chain check decides; every other row is untouched. -/
lemma checkPhase_status (L : Ledger) (now maxAgeMinutes : Nat)
    (t : UploadTable) (c : String) (hK : (cids t).Nodup) :
    statusOf (checkPhase L now t (getStaleUploads now maxAgeMinutes t)).1 c =
      match t.find? (fun r => r.cid == c) with
      | none => none
      | some r =>
        some (if isStalePending now maxAgeMinutes r then
            (if checkOnChain L r.threadId r.sender r.messageIndex then
              UploadStatus.confirmed else UploadStatus.orphaned)
          else r.status) := by
  have hnd : ((getStaleUploads now maxAgeMinutes t).map
      (fun u => u.cid)).Nodup := by
    have := cids_filter_nodup (isStalePending now maxAgeMinutes) t hK
    simpa [cids, getStaleUploads] using this
  rw [checkPhase, checkFold_status_char L now _ (t, 0, 0) c hnd]
  rcases hf : t.find? (fun r => r.cid == c) with _ | r
  · have hnone : (getStaleUploads now maxAgeMinutes t).find?
        (fun u => u.cid == c) = none := by
      rw [List.find?_eq_none]
      intro x hx hpx
      exact (List.find?_eq_none.mp hf) x ((List.mem_filter.mp hx).1) hpx
    rw [hnone]
    simp [statusOf, hf]
  · rw [stale_find now maxAgeMinutes t c r hK hf]
    by_cases hp : isStalePending now maxAgeMinutes r = true
    · rw [if_pos hp]
      simp [statusOf, hf, hp]
    · rw [if_neg hp]
      have hp2 : isStalePending now maxAgeMinutes r = false := by
        simpa using hp
      simp [statusOf, hf, hp2]

/-- Row-by-row characterization of the unpin phase run on the orphaned
snapshot of a keyed table: outside dry-run every orphaned row becomes
unpinned, everything else is untouched; dry-run touches nothing. -/
lemma unpin_stage_status (dry : Bool) (t1 : UploadTable) (c : String)
    (hK1 : (cids t1).Nodup) :
    statusOf (unpinPhase dry t1 (getOrphanedUploads t1)).1 c =
      if dry = false ∧ statusOf t1 c = some .orphaned
      then some .unpinned else statusOf t1 c := by
  rw [unpinPhase, unpinFold_status]
  by_cases hd : dry = false
  · by_cases ho : statusOf t1 c = some .orphaned
    · have hmem : c ∈ (getOrphanedUploads t1).map (fun u => u.cid) :=
        (mem_orphaned_cids_iff t1 hK1 c).mpr ho
      rw [if_pos ⟨hd, hmem⟩, if_pos ⟨hd, ho⟩, ho]
      rfl
    · have hnmem : c ∉ (getOrphanedUploads t1).map (fun u => u.cid) :=
        fun hm => ho ((mem_orphaned_cids_iff t1 hK1 c).mp hm)
      rw [if_neg (fun h => hnmem h.2), if_neg (fun h => ho h.2)]
  · rw [if_neg (fun h => hd h.1), if_neg (fun h => hd h.1)]

/-- The final table of runCleanup is the unpin phase applied after the
check phase (deletions strictly follow all confirmation checks). -/
lemma runCleanup_table (L : Ledger) (now maxAgeMinutes : Nat) (dry : Bool)
    (t : UploadTable) :
    (runCleanup L now maxAgeMinutes dry t).1 =
      (unpinPhase dry
        (checkPhase L now t (getStaleUploads now maxAgeMinutes t)).1
        (getOrphanedUploads
          (checkPhase L now t (getStaleUploads now maxAgeMinutes t)).1)).1
      := rfl

/-- The cid column survives the check phase unchanged. -/
lemma checkPhase_cids (L : Ledger) (now maxAgeMinutes : Nat)
    (t : UploadTable) :
    cids (checkPhase L now t (getStaleUploads now maxAgeMinutes t)).1 =
      cids t :=
  checkFold_cids L now _ (t, 0, 0)

/-- Row-by-row characterization of a whole sweep on a keyed table. -/
lemma runCleanup_status (L : Ledger) (now maxAgeMinutes : Nat) (dry : Bool)
    (t : UploadTable) (c : String) (hK : (cids t).Nodup) :
    statusOf (runCleanup L now maxAgeMinutes dry t).1 c =
      match t.find? (fun r => r.cid == c) with
      | none => none
      | some r =>
        some (
          let s1 := if isStalePending now maxAgeMinutes r then
              (if checkOnChain L r.threadId r.sender r.messageIndex then
                UploadStatus.confirmed else UploadStatus.orphaned)
            else r.status
          if dry = false ∧ s1 = .orphaned then .unpinned else s1) := by
  have hK1 : (cids (checkPhase L now t
      (getStaleUploads now maxAgeMinutes t)).1).Nodup := by
    rw [checkPhase_cids]
    exact hK
  rw [runCleanup_table, unpin_stage_status dry _ c hK1,
    checkPhase_status L now maxAgeMinutes t c hK]
  rcases hf : t.find? (fun r => r.cid == c) with _ | r
  · rw [hf]
    simp
  · rw [hf]
    dsimp only
    by_cases hcond : dry = false ∧
        (if isStalePending now maxAgeMinutes r then
          (if checkOnChain L r.threadId r.sender r.messageIndex then
            UploadStatus.confirmed else UploadStatus.orphaned)
        else r.status) = .orphaned
    · rw [if_pos ⟨hcond.1, by rw [hcond.2]⟩, if_pos hcond]
    · have hnotL : ¬ (dry = false ∧
          (some (if isStalePending now maxAgeMinutes r then
              (if checkOnChain L r.threadId r.sender r.messageIndex then
                UploadStatus.confirmed else UploadStatus.orphaned)
            else r.status) : Option UploadStatus)
            = some UploadStatus.orphaned) :=
        fun h => hcond ⟨h.1, by simpa using h.2⟩
      rw [if_neg hnotL, if_neg hcond]

/-- Repeated tracking preserves distinctness of the cid column. -/
lemma trackFold_nodup :
    ∀ (calls : List TrackCall) (t : UploadTable), (cids t).Nodup →
      (cids (calls.foldl applyTrack t)).Nodup := by
  intro calls
  induction calls with
  | nil => intro t h; exact h
  | cons k l ih =>
    intro t h
    rw [List.foldl_cons]
    exact ih _
      (cids_insert_nodup k.time k.cid k.threadId k.messageIndex k.sender t h)

/-! ## Claim theorems for the tracking store and the sweeper -/

/-- Counterexample to claim C4 as stated: confirmUpload carries no guard on
the previous status, so calling it on a row already in the terminal
unpinned state rewrites the row to confirmed — an unpinned-to-confirmed
transition, not a no-op. -/
theorem confirm_on_terminal_changes_row :
    statusOf (confirmUpload 99 ("cu") [rowUnpinned]) ("cu")
      = some .confirmed ∧
    UploadStatus.confirmed ≠ UploadStatus.unpinned ∧
    statusOf [rowUnpinned] ("cu") = some .unpinned := by
  refine ⟨by decide, by decide, by decide⟩

/-- Claim C4 (amended): confirmUpload unconditionally sets any existing row
to confirmed whatever its prior status, trackUpload resets any row for the
cid to pending, and within one runCleanup sweep a row's status only moves
pending to confirmed, pending to orphaned or unpinned (orphaned then
unpinned in the same sweep), or orphaned to unpinned. -/
theorem tracking_status_rules (L : Ledger) (now maxAgeMinutes : Nat)
    (dry : Bool) (t : UploadTable) (c cid threadId : String)
    (messageIndex : Nat) (sender : String) (hK : (cids t).Nodup) :
    statusOf (confirmUpload now cid t) cid
      = (statusOf t cid).map (fun _ => UploadStatus.confirmed) ∧
    statusOf (trackUpload now cid threadId messageIndex sender t) cid
      = some .pending ∧
    sweepStepOk (statusOf t c)
      (statusOf (runCleanup L now maxAgeMinutes dry t).1 c) := by
  refine ⟨statusOf_markConfirmed_self now cid t,
    statusOf_insert_self now cid threadId messageIndex sender t, ?_⟩
  rw [runCleanup_status L now maxAgeMinutes dry t c hK]
  unfold sweepStepOk
  rcases hf : t.find? (fun r => r.cid == c) with _ | r
  · rw [hf]
    left
    simp [statusOf, hf]
  · rw [hf]
    dsimp only
    have hs : statusOf t c = some r.status := by simp [statusOf, hf]
    rw [hs]
    by_cases hp : isStalePending now maxAgeMinutes r = true
    · have hrp : r.status = .pending := by
        have h2 := (Bool.and_eq_true _ _).mp hp
        simpa using h2.1
      rw [if_pos hp]
      by_cases hchk : checkOnChain L r.threadId r.sender r.messageIndex
        = true
      · rw [if_pos hchk, if_neg (by simp)]
        right; left
        exact ⟨by rw [hrp], Or.inl rfl⟩
      · rw [if_neg hchk]
        by_cases hd : dry = false
        · rw [if_pos ⟨hd, rfl⟩]
          right; left
          exact ⟨by rw [hrp], Or.inr (Or.inr rfl)⟩
        · rw [if_neg (fun h => hd h.1)]
          right; left
          exact ⟨by rw [hrp], Or.inr (Or.inl rfl)⟩
    · rw [if_neg hp]
      by_cases horp : r.status = .orphaned
      · by_cases hd : dry = false
        · rw [if_pos ⟨hd, horp⟩]
          right; right
          exact ⟨by rw [horp], rfl⟩
        · rw [if_neg (fun h => hd h.1)]
          left; rfl
      · rw [if_neg (fun h => horp h.2)]
        left; rfl

/-- Witness for the amended C4 at a concrete input. -/
theorem tracking_status_rules_witness :
    (cids [rowPending]).Nodup ∧
    sweepStepOk (statusOf [rowPending] ("cp"))
      (statusOf (runCleanup none 1000000 15 false [rowPending]).1 ("cp"))
      := by
  refine ⟨by decide, ?_⟩
  exact (tracking_status_rules none 1000000 15 false [rowPending] ("cp")
    ("cp") ("t") 0 ("s") (by decide)).2.2

/-- Counterexample to claim C5 as stated: a row still pending when the sweep
starts is marked orphaned by the check loop and then unpinned by the unpin
loop of the very same sweep, so an entry does transition to unpinned in a
sweep at whose start it was not yet orphaned. -/
theorem sweep_unpins_newly_orphaned :
    statusOf [rowPending] ("cp") = some .pending ∧
    UploadStatus.pending ≠ UploadStatus.orphaned ∧
    statusOf (runCleanup none 1000000 15 false [rowPending]).1 ("cp")
      = some .unpinned := by
  refine ⟨by decide, by decide, by decide⟩

/-- Claim C5 (amended): within one sweep all confirmation checks complete
before any deletion begins (the final table is the unpin phase applied to
the check phase's output); a row only reaches unpinned if it was orphaned
when the deletion phase began — orphaned at sweep start or orphaned by the
same sweep's check phase — and a row the check phase confirmed is never
deleted in that sweep. -/
theorem sweep_checks_precede_deletes (L : Ledger) (now maxAgeMinutes : Nat)
    (dry : Bool) (t : UploadTable) (c : String) (hK : (cids t).Nodup) :
    (runCleanup L now maxAgeMinutes dry t).1 =
      (unpinPhase dry
        (checkPhase L now t (getStaleUploads now maxAgeMinutes t)).1
        (getOrphanedUploads
          (checkPhase L now t (getStaleUploads now maxAgeMinutes t)).1)).1 ∧
    (statusOf (runCleanup L now maxAgeMinutes dry t).1 c = some .unpinned →
      statusOf (checkPhase L now t
          (getStaleUploads now maxAgeMinutes t)).1 c = some .orphaned ∨
      statusOf (checkPhase L now t
          (getStaleUploads now maxAgeMinutes t)).1 c = some .unpinned) ∧
    (statusOf (checkPhase L now t
        (getStaleUploads now maxAgeMinutes t)).1 c = some .confirmed →
      statusOf (runCleanup L now maxAgeMinutes dry t).1 c
        = some .confirmed) := by
  have hK1 : (cids (checkPhase L now t
      (getStaleUploads now maxAgeMinutes t)).1).Nodup := by
    rw [checkPhase_cids]
    exact hK
  refine ⟨runCleanup_table L now maxAgeMinutes dry t, ?_, ?_⟩
  · intro h2
    rw [runCleanup_table, unpin_stage_status dry _ c hK1] at h2
    by_cases hcond : dry = false ∧ statusOf (checkPhase L now t
        (getStaleUploads now maxAgeMinutes t)).1 c = some .orphaned
    · left
      exact hcond.2
    · rw [if_neg hcond] at h2
      right
      exact h2
  · intro h1
    rw [runCleanup_table, unpin_stage_status dry _ c hK1]
    rw [if_neg (fun h => by rw [h1] at h; exact absurd h.2 (by decide))]
    exact h1

/-- Witness for the amended C5 at a concrete input. -/
theorem sweep_checks_precede_deletes_witness :
    (cids [rowOrphaned]).Nodup ∧
    (statusOf (runCleanup none 1000000 15 false [rowOrphaned]).1 ("co")
        = some .unpinned →
      statusOf (checkPhase none 1000000 [rowOrphaned]
          (getStaleUploads 1000000 15 [rowOrphaned])).1 ("co")
        = some .orphaned ∨
      statusOf (checkPhase none 1000000 [rowOrphaned]
          (getStaleUploads 1000000 15 [rowOrphaned])).1 ("co")
        = some .unpinned) := by
  refine ⟨by decide, ?_⟩
  exact (sweep_checks_precede_deletes none 1000000 15 false [rowOrphaned]
    ("co") (by decide)).2.1

/-- Counterexample to claim C6 as stated: when an entry's ledger query
throws, checkOnChain swallows the error and reports not-confirmed, so the
check loop marks the entry orphaned — its state changes instead of
remaining pending for the next sweep. -/
theorem ledger_failure_marks_orphaned :
    statusOf (runCleanup failingLedger 1000000 15 true [rowPending]).1
      ("cp") = some .orphaned ∧
    some UploadStatus.orphaned ≠ some UploadStatus.pending := by
  refine ⟨by decide, by decide⟩

/-- Claim C6 (amended): each entry of the check phase is settled by its own
row and its own ledger answer alone, so one entry's ledger-query failure
cannot abort or alter the others; but the failing entry itself is treated
as unconfirmed and marked orphaned, not left in its prior state. -/
theorem ledger_failure_isolated_per_entry (L : Ledger)
    (now maxAgeMinutes : Nat) (t : UploadTable) (c : String) (r : UploadRow)
    (hK : (cids t).Nodup)
    (hf : t.find? (fun x => x.cid == c) = some r) :
    statusOf (checkPhase L now t (getStaleUploads now maxAgeMinutes t)).1 c
      = some (if isStalePending now maxAgeMinutes r then
          (if checkOnChain L r.threadId r.sender r.messageIndex then
            UploadStatus.confirmed else UploadStatus.orphaned)
        else r.status) ∧
    (∀ q, L = some q → q r.threadId r.sender = none →
      isStalePending now maxAgeMinutes r = true →
      statusOf (checkPhase L now t
        (getStaleUploads now maxAgeMinutes t)).1 c = some .orphaned) := by
  have h1 : statusOf (checkPhase L now t
      (getStaleUploads now maxAgeMinutes t)).1 c
      = some (if isStalePending now maxAgeMinutes r then
          (if checkOnChain L r.threadId r.sender r.messageIndex then
            UploadStatus.confirmed else UploadStatus.orphaned)
        else r.status) := by
    rw [checkPhase_status L now maxAgeMinutes t c hK, hf]
  refine ⟨h1, ?_⟩
  intro q hq hfail hstale
  have hchk : checkOnChain L r.threadId r.sender r.messageIndex = false := by
    rw [hq]
    unfold checkOnChain
    dsimp only
    rw [hfail]
  rw [h1, if_pos hstale]
  simp [hchk]

/-- Witness for the amended C6 at a concrete input. -/
theorem ledger_failure_isolated_per_entry_witness :
    ((cids [rowPending]).Nodup ∧
      List.find? (fun x => x.cid == ("cp")) [rowPending]
        = some rowPending) ∧
    statusOf (checkPhase failingLedger 1000000 [rowPending]
      (getStaleUploads 1000000 15 [rowPending])).1 ("cp")
      = some .orphaned := by
  refine ⟨⟨by decide, by decide⟩, ?_⟩
  exact (ledger_failure_isolated_per_entry failingLedger 1000000 15
    [rowPending] ("cp") rowPending (by decide) (by decide)).2
    (fun _ _ => none) rfl rfl (by decide)

/-- Counterexample to claim C7 as stated: a non-dry sweep that processes an
orphaned entry issues no operation at all against the object store (the
unpin routine is a stub), yet still marks the entry unpinned. -/
theorem sweep_issues_no_store_delete :
    (runCleanup none 1000000 15 false [rowOrphaned]).2.2
      = ([] : List StoreOp) ∧
    statusOf (runCleanup none 1000000 15 false [rowOrphaned]).1 ("co")
      = some .unpinned := by
  refine ⟨by decide, by decide⟩

/-- Claim C7 (amended): the sweeper invokes the stubbed unpin routine for
each orphaned entry; the routine reports success without issuing any store
operation, and markUnpinned follows exactly on that reported success (hence
always); dryRun skips the unpin loop's effects while the check phase still
runs. -/
theorem sweep_unpin_stub_rules (L : Ledger) (now maxAgeMinutes : Nat)
    (dry : Bool) (t : UploadTable) (c : String) (hK : (cids t).Nodup) :
    (runCleanup L now maxAgeMinutes dry t).2.2 = [] ∧
    (dry = true →
      (runCleanup L now maxAgeMinutes dry t).1 =
        (checkPhase L now t (getStaleUploads now maxAgeMinutes t)).1 ∧
      (runCleanup L now maxAgeMinutes dry t).2.1.unpinned = 0) ∧
    (dry = false →
      (statusOf (runCleanup L now maxAgeMinutes dry t).1 c
          = some .unpinned ↔
        statusOf (checkPhase L now t
            (getStaleUploads now maxAgeMinutes t)).1 c = some .orphaned ∨
        statusOf (checkPhase L now t
            (getStaleUploads now maxAgeMinutes t)).1 c
          = some .unpinned)) := by
  have hK1 : (cids (checkPhase L now t
      (getStaleUploads now maxAgeMinutes t)).1).Nodup := by
    rw [checkPhase_cids]
    exact hK
  refine ⟨?_, ?_, ?_⟩
  · exact unpinFold_ops dry
      (getOrphanedUploads
        (checkPhase L now t (getStaleUploads now maxAgeMinutes t)).1)
      ((checkPhase L now t (getStaleUploads now maxAgeMinutes t)).1, 0, [])
  · intro hd
    subst hd
    constructor
    · rw [runCleanup_table, unpinPhase, unpinFold_dry]
    · show (unpinPhase true
        (checkPhase L now t (getStaleUploads now maxAgeMinutes t)).1
        (getOrphanedUploads
          (checkPhase L now t
            (getStaleUploads now maxAgeMinutes t)).1)).2.1 = 0
      rw [unpinPhase, unpinFold_dry]
  · intro hd
    subst hd
    rw [runCleanup_table, unpin_stage_status false _ c hK1]
    by_cases ho : statusOf (checkPhase L now t
        (getStaleUploads now maxAgeMinutes t)).1 c = some .orphaned
    · rw [if_pos ⟨rfl, ho⟩]
      simp [ho]
    · rw [if_neg (fun h => ho h.2)]
      constructor
      · intro h
        right
        exact h
      · intro h
        rcases h with h | h
        · exact absurd h ho
        · exact h

/-- Witness for the amended C7 at a concrete input. -/
theorem sweep_unpin_stub_rules_witness :
    (cids [rowOrphaned]).Nodup ∧
    (runCleanup none 1000000 15 false [rowOrphaned]).2.2 = [] := by
  refine ⟨by decide, ?_⟩
  exact (sweep_unpin_stub_rules none 1000000 15 false [rowOrphaned] ("co")
    (by decide)).1

/-- Claim C8: tracking is idempotent on the cid: after re-tracking a cid the
table holds exactly one row for it, distinctness of the cid column is
preserved, and any sequence of track calls from an empty table yields at
most one row per cid. -/
theorem track_idempotent_on_cid (now : Nat) (cid threadId : String)
    (messageIndex : Nat) (sender : String) (t : UploadTable)
    (calls : List TrackCall) :
    ((trackUpload now cid threadId messageIndex sender t).filter
        (fun r => r.cid == cid)).length = 1 ∧
    ((cids t).Nodup →
      (cids (trackUpload now cid threadId messageIndex sender t)).Nodup) ∧
    (cids (calls.foldl applyTrack [])).Nodup ∧
    (∀ c, ((calls.foldl applyTrack []).filter
        (fun r => r.cid == c)).length ≤ 1) := by
  refine ⟨?_,
    fun h => cids_insert_nodup now cid threadId messageIndex sender t h,
    trackFold_nodup calls [] (by simp [cids]),
    fun c => filter_cid_length_le_one c _
      (trackFold_nodup calls [] (by simp [cids]))⟩
  unfold trackUpload insertUpload
  rw [List.filter_append]
  have h1 : (t.filter (fun r => !(r.cid == cid))).filter
      (fun r => r.cid == cid) = [] := by
    rw [List.filter_eq_nil_iff]
    intro x hx
    have hx2 := (List.mem_filter.mp hx).2
    simp at hx2
    simp [hx2]
  rw [h1]
  simp

/-- Witness for C8 at a concrete input: re-tracking the same cid leaves one
row, and a two-call sequence on one cid keeps the cid column duplicate
free. -/
theorem track_idempotent_on_cid_witness :
    ((trackUpload 2 ("cp") ("t") 1 ("s") [rowPending]).filter
        (fun r => r.cid == ("cp"))).length = 1 ∧
    (cids (([⟨"cp", "t", 0, "s", 1⟩, ⟨"cp", "t", 1, "s", 2⟩] :
        List TrackCall).foldl applyTrack [])).Nodup := by
  constructor
  · exact (track_idempotent_on_cid 2 ("cp") ("t") 1 ("s") [rowPending]
      []).1
  · exact (track_idempotent_on_cid 2 ("cp") ("t") 1 ("s") [rowPending]
      [⟨"cp", "t", 0, "s", 1⟩, ⟨"cp", "t", 1, "s", 2⟩]).2.2.1

/-- Claim C10: with no contract handle the on-chain check is false for
every entry, so a non-dry sweep marks every stale pending row orphaned —
never confirmed — and then unpinned. -/
theorem no_contract_sweep_orphans (now maxAgeMinutes : Nat)
    (t : UploadTable) (c : String) (r : UploadRow) (hK : (cids t).Nodup)
    (hf : t.find? (fun x => x.cid == c) = some r)
    (hp : r.status = .pending)
    (hold : r.createdAt < now - maxAgeMinutes * 60000) :
    statusOf (checkPhase none now t
      (getStaleUploads now maxAgeMinutes t)).1 c = some .orphaned ∧
    statusOf (runCleanup none now maxAgeMinutes false t).1 c
      = some .unpinned ∧
    (runCleanup none now maxAgeMinutes false t).2.1.confirmed = 0 := by
  have hstale : isStalePending now maxAgeMinutes r = true := by
    unfold isStalePending
    simp [hp, hold]
  refine ⟨?_, ?_, ?_⟩
  · rw [checkPhase_status none now maxAgeMinutes t c hK, hf]
    simp [hstale, checkOnChain]
  · rw [runCleanup_status none now maxAgeMinutes false t c hK, hf]
    simp [hstale, checkOnChain]
  · exact checkFold_confirmed_of_false none now
      (getStaleUploads now maxAgeMinutes t) (t, 0, 0) (fun u _ => rfl)

/-- Witness for C10 at a concrete input. -/
theorem no_contract_sweep_orphans_witness :
    ((cids [rowPending]).Nodup ∧
      List.find? (fun x => x.cid == ("cp")) [rowPending] = some rowPending ∧
      rowPending.status = .pending ∧
      rowPending.createdAt < 1000000 - 15 * 60000) ∧
    statusOf (runCleanup none 1000000 15 false [rowPending]).1 ("cp")
      = some .unpinned := by
  refine ⟨⟨by decide, by decide, by decide, by decide⟩, ?_⟩
  exact (no_contract_sweep_orphans 1000000 15 [rowPending] ("cp")
    rowPending (by decide) (by decide) (by decide) (by decide)).2.1

end Relayer
